import Mathlib

/-!
# Verification of the DSS-43 K2 observation-control server

Shallow embedding of the observation-control core of the
`Configurations_CDSCC` repository:

* the minical gain calibration (`gain_cal`, `process_minical_calib` in
  `apps/server/dss43k2_server.py`),
* the boresight point grid (`calc_bs_points`),
* Welch's t-test (`welchs_t_test`),
* the two-beam nod sequencer (`TwoBeamNodWorker.run` in
  `apps/server/workers/__init__.py`),
* the telemetry-poller error handling (`PowerMeterWorker.run`,
  `APCWorker.run`, `RMSWorker.run`),
* the orchestration server's per-procedure `running` flags and the
  `tipping_info` status property.

Numerical code in the source operates on numpy scalars and 1-D arrays.
Numpy floating-point arithmetic is modelled exactly over the rationals,
extended with the IEEE special values `+inf`, `-inf` and `nan`: in numpy,
division by zero and invalid operations produce these special values
(with a runtime warning) instead of raising an exception, which is the
behaviour several of the verified properties depend on.  Rounding is not
modelled; none of the properties below depend on the magnitude of a
rounding error.
-/

/-- Python-level exceptions that the modelled code can raise.  Numpy
raises `ValueError` when two arrays of incompatible shapes are combined;
`IndexError` comes from list indexing; `AttributeError` from reading an
attribute that was never assigned. -/
inductive PyErr where
  | valueError
  | indexError
  | attributeError
deriving DecidableEq, Repr

/-- A numpy floating-point scalar, idealized: finite values are exact
rationals, plus the IEEE special values.  Signed zero is not modelled
(a finite zero behaves as `+0`, which is what the computations in the
source produce). -/
inductive NF where
  | fin : ℚ → NF
  | posInf : NF
  | negInf : NF
  | nan : NF
deriving DecidableEq, Repr

namespace NF

/-- IEEE addition on numpy scalars. -/
def add : NF → NF → NF
  | fin a, fin b => fin (a + b)
  | fin _, posInf => posInf
  | fin _, negInf => negInf
  | posInf, fin _ => posInf
  | negInf, fin _ => negInf
  | posInf, posInf => posInf
  | negInf, negInf => negInf
  | posInf, negInf => nan
  | negInf, posInf => nan
  | nan, _ => nan
  | _, nan => nan

/-- IEEE negation. -/
def neg : NF → NF
  | fin a => fin (-a)
  | posInf => negInf
  | negInf => posInf
  | nan => nan

/-- IEEE subtraction (`x - y = x + (-y)`). -/
def sub (x y : NF) : NF := add x (neg y)

/-- IEEE multiplication; `0 * inf = nan`. -/
def mul : NF → NF → NF
  | fin a, fin b => fin (a * b)
  | fin a, posInf => if a > 0 then posInf else if a < 0 then negInf else nan
  | fin a, negInf => if a > 0 then negInf else if a < 0 then posInf else nan
  | posInf, fin b => if b > 0 then posInf else if b < 0 then negInf else nan
  | negInf, fin b => if b > 0 then negInf else if b < 0 then posInf else nan
  | posInf, posInf => posInf
  | negInf, negInf => posInf
  | posInf, negInf => negInf
  | negInf, posInf => negInf
  | nan, _ => nan
  | _, nan => nan

/-- IEEE division as performed by numpy: a finite nonzero value divided
by zero gives a signed infinity, `0 / 0` gives `nan`; no exception is
raised (numpy emits a runtime warning instead). -/
def div : NF → NF → NF
  | fin a, fin b =>
      if b = 0 then (if a > 0 then posInf else if a < 0 then negInf else nan)
      else fin (a / b)
  | fin _, posInf => fin 0
  | fin _, negInf => fin 0
  | posInf, fin b => if b < 0 then negInf else posInf
  | negInf, fin b => if b < 0 then posInf else negInf
  | posInf, posInf => nan
  | posInf, negInf => nan
  | negInf, posInf => nan
  | negInf, negInf => nan
  | nan, _ => nan
  | _, nan => nan

/-- Repeated multiplication on ℚ (kernel-reducible power). -/
def powQ (a : ℚ) : ℕ → ℚ
  | 0 => 1
  | k + 1 => a * powQ a k

/-- Python `**` with a natural exponent on a numpy scalar
(`x ** 0 = 1` even for `nan`, as in IEEE `pow`). -/
def pow (x : NF) (k : ℕ) : NF :=
  match x, k with
  | _, 0 => fin 1
  | fin a, k => fin (powQ a k)
  | posInf, _ => posInf
  | negInf, k => if k % 2 = 0 then posInf else negInf
  | nan, _ => nan

end NF

instance {ε α : Type} [DecidableEq ε] [DecidableEq α] : DecidableEq (Except ε α) := by
  intro a b
  cases a <;> cases b
  case error.error e1 e2 =>
    exact if h : e1 = e2 then isTrue (by rw [h]) else isFalse (fun c => by cases c; exact h rfl)
  case error.ok => exact isFalse (fun c => by cases c)
  case ok.error => exact isFalse (fun c => by cases c)
  case ok.ok a1 a2 =>
    exact if h : a1 = a2 then isTrue (by rw [h]) else isFalse (fun c => by cases c; exact h rfl)

/-- Numpy 1-D broadcasting of a binary ufunc: equal lengths combine
elementwise, a length-1 array broadcasts against any other length, and
any other combination raises `ValueError`. -/
def bcast (f : NF → NF → NF) (a b : List NF) : Except PyErr (List NF) :=
  if a.length = b.length then .ok (List.zipWith f a b)
  else
    match a, b with
    | [x], bs => .ok (bs.map (fun y => f x y))
    | as, [y] => .ok (as.map (fun x => f x y))
    | _, _ => .error .valueError

/-- Python list indexing: `l[i]` raises `IndexError` when out of range. -/
def pyIndex {α : Type} (l : List α) (i : ℕ) : Except PyErr α :=
  match l.get? i with
  | some x => .ok x
  | none => .error .indexError

/-! ## Minical gain calibration

Model of `DSS43K2Server.process_minical_calib` and its inner function
`gain_cal` (dss43k2_server.py, lines 445-564).  The five power-meter
reading vectors and the load-temperature vector arrive as Python lists
and are converted to numpy arrays (`np.array(...)`); all arithmetic is
numpy elementwise arithmetic on those arrays, modelled by `bcast`
(array-array, with numpy length-1 broadcasting) and `List.map`
(array-scalar). -/

/-- The `cal_data` dictionary handed to `process_minical_calib`:
the five reading vectors `zero`, `sky`, `sky+ND`, `load`, `load+ND`
and the physical load temperatures `Tload`. -/
structure CalData where
  zero : List ℚ
  sky : List ℚ
  skyND : List ℚ
  load : List ℚ
  loadND : List ℚ
  Tload : List ℚ
deriving DecidableEq, Repr

/-- The tuple `(B, BC, CC, Tnd)` returned by `gain_cal`. -/
structure GainCalResult where
  B : List NF
  BC : List NF
  CC : List NF
  Tnd : List NF
deriving DecidableEq, Repr

/-- `gain_cal(Tlna, Tf, R1, R2, R3, R4, R5, Tp, Fghz, TP4corr)`
(dss43k2_server.py lines 458-500), the Stelzried-Klein minical solver.
`B = T4P / (R4 - R1)` is a numpy array division: when `R4 == R1` it
produces infinities/NaNs with a warning, it does not raise. -/
def gain_cal (Tlna Tf : ℚ) (R1 R2 R3 R4 R5 Tp : List NF) (Fghz TP4corr : ℚ) :
    Except PyErr GainCalResult := do
  -- Tc = -0.024 * Fghz
  let Tc : ℚ := -(24 / 1000) * Fghz
  -- T4P = Tp + Tlna + Tf + Tc + TP4corr  (array + four scalars)
  let T4P := (((Tp.map (fun x => x.add (.fin Tlna))).map (fun x => x.add (.fin Tf))).map
      (fun x => x.add (.fin Tc))).map (fun x => x.add (.fin TP4corr))
  let r41 ← bcast NF.sub R4 R1
  let B ← bcast NF.div T4P r41
  let r21 ← bcast NF.sub R2 R1
  let T2 ← bcast NF.mul B r21
  let r31 ← bcast NF.sub R3 R1
  let T3 ← bcast NF.mul B r31
  let r51 ← bcast NF.sub R5 R1
  let T5 ← bcast NF.mul B r51
  -- M = T5*T5 - T4P*T4P - T3*T3 + T2*T2
  let t55 ← bcast NF.mul T5 T5
  let t44 ← bcast NF.mul T4P T4P
  let t33 ← bcast NF.mul T3 T3
  let t22 ← bcast NF.mul T2 T2
  let m1 ← bcast NF.sub t55 t44
  let m2 ← bcast NF.sub m1 t33
  let M ← bcast NF.add m2 t22
  -- N = T5 - T4P - T3 + T2
  let n1 ← bcast NF.sub T5 T4P
  let n2 ← bcast NF.sub n1 T3
  let N ← bcast NF.add n2 T2
  -- CC = N / (N*T4P - M)
  let nt ← bcast NF.mul N T4P
  let den ← bcast NF.sub nt M
  let CC ← bcast NF.div N den
  -- BC = 1.0 - CC*T4P  (scalar - array)
  let cct ← bcast NF.mul CC T4P
  let BC := cct.map (fun x => NF.sub (.fin 1) x)
  -- Tnd = BC*(T3 - T2) + CC*(T3*T3 - T2*T2)
  let t32 ← bcast NF.sub T3 T2
  let p1 ← bcast NF.mul BC t32
  let t33b ← bcast NF.mul T3 T3
  let t22b ← bcast NF.mul T2 T2
  let sq ← bcast NF.sub t33b t22b
  let p2 ← bcast NF.mul CC sq
  let Tnd ← bcast NF.add p1 p2
  return ⟨B, BC, CC, Tnd⟩

/-- The dictionary returned by `process_minical_calib`: keys `gains`,
`linear`, `quadratic`, `nd-temp`, `non-linearity`, `tsys-factors`. -/
structure MinicalResult where
  gains : List (List NF)
  linear : List (List NF)
  quadratic : List (List NF)
  ndTemp : List NF
  nonLinearity : List NF
  tsysFactors : List NF
deriving DecidableEq, Repr

/-- The comprehension
`[cal_data['sky'][i] / Tquadratic[0][i] for i in xrange(4)]`
(line 551): `sky` is indexed as the original Python list, `q` is the
numpy array `Tquadratic[0]`; indexing past the end raises `IndexError`,
elements are produced left to right. -/
def buildTsys (sky : List ℚ) (q : List NF) : List ℕ → Except PyErr (List NF)
  | [] => .ok []
  | i :: rest => do
      let s ← pyIndex sky i
      let t ← pyIndex q i
      let others ← buildTsys sky q rest
      return (NF.div (.fin s) t :: others)

/-- `DSS43K2Server.process_minical_calib(cal_data, Tlna=25, Tf=1,
Fghz=20, TcorrNDcoupling=0)` (dss43k2_server.py lines 445-564). -/
def process_minical_calib (cal : CalData) (Tlna : ℚ := 25) (Tf : ℚ := 1)
    (Fghz : ℚ := 20) (TcorrNDcoupling : ℚ := 0) : Except PyErr MinicalResult := do
  let R1 := cal.zero.map NF.fin
  let R2 := cal.sky.map NF.fin
  let R3 := cal.skyND.map NF.fin
  let R4 := cal.load.map NF.fin
  let R5 := cal.loadND.map NF.fin
  let load := cal.Tload.map NF.fin
  let g ← gain_cal Tlna Tf R1 R2 R3 R4 R5 load Fghz TcorrNDcoupling
  let B := g.B
  let BC := g.BC
  let CC := g.CC
  let Tnd := g.Tnd
  -- T2 = B * (R2 - R1), T3, T4, T5 likewise
  let r21 ← bcast NF.sub R2 R1
  let T2 ← bcast NF.mul B r21
  let r31 ← bcast NF.sub R3 R1
  let T3 ← bcast NF.mul B r31
  let r41 ← bcast NF.sub R4 R1
  let T4 ← bcast NF.mul B r41
  let r51 ← bcast NF.sub R5 R1
  let T5 ← bcast NF.mul B r51
  let Tlinear := [T2, T3, T4, T5]
  -- TkC = BC*Tk + CC*Tk*Tk for k = 2..5
  let a2 ← bcast NF.mul BC T2
  let b2 ← bcast NF.mul CC T2
  let c2 ← bcast NF.mul b2 T2
  let T2C ← bcast NF.add a2 c2
  let a3 ← bcast NF.mul BC T3
  let b3 ← bcast NF.mul CC T3
  let c3 ← bcast NF.mul b3 T3
  let T3C ← bcast NF.add a3 c3
  let a4 ← bcast NF.mul BC T4
  let b4 ← bcast NF.mul CC T4
  let c4 ← bcast NF.mul b4 T4
  let T4C ← bcast NF.add a4 c4
  let a5 ← bcast NF.mul BC T5
  let b5 ← bcast NF.mul CC T5
  let c5 ← bcast NF.mul b5 T5
  let T5C ← bcast NF.add a5 c5
  let Tquadratic := [T2C, T3C, T4C, T5C]
  -- FL = T2C / T2; NonLin = 100.0 * (FL - 1.0)
  let FL ← bcast NF.div T2C T2
  let NonLin := (FL.map (fun x => NF.sub x (.fin 1))).map (fun x => NF.mul (.fin 100) x)
  let tsys ← buildTsys cal.sky T2C [0, 1, 2, 3]
  return ⟨[B, BC, CC, Tnd], Tlinear, Tquadratic, Tnd, NonLin, tsys⟩

/-- The literal regression input: all five reading vectors `[0,0,0,0]`
and `Tload = [300,300,300,300]`, so that `R4 == R1` componentwise. -/
def minicalZeroInput : CalData :=
  { zero := [0, 0, 0, 0], sky := [0, 0, 0, 0], skyND := [0, 0, 0, 0],
    load := [0, 0, 0, 0], loadND := [0, 0, 0, 0], Tload := [300, 300, 300, 300] }

/-! ## Boresight point grid

Model of `DSS43K2Server.calc_bs_points` (dss43k2_server.py lines
666-688) and the per-axis offsetting done by `boresight` (line 795). -/

/-- `np.linspace(start, stop, num)` for 1-D output: `num` points from
`start` to `stop` inclusive; `num = 1` gives `[start]`, `num = 0` gives
`[]`, and a negative `num` raises `ValueError`. -/
def linspace (start stop : ℚ) (num : ℤ) : Except PyErr (List ℚ) :=
  if num < 0 then .error .valueError
  else if num = 1 then .ok [start]
  else .ok ((List.range num.toNat).map
      (fun i : ℕ => start + (i : ℚ) * (stop - start) / ((num : ℚ) - 1)))

/-- `DSS43K2Server.calc_bs_points(n_points=9, fwhm=None)`.  The Python
code replaces a falsy `fwhm` (None or `0`) by `self.apc.k_band_fwhm()`,
here the parameter `kband`.  Its guard is the literal source condition
`if n_points < 6 and n_points > 15`, whose branch logs an error and
returns `None`; otherwise it returns the pair
`(points, points_scaled)`. -/
def calc_bs_points (n_points : ℤ) (fwhm : Option ℚ) (kband : ℚ) :
    Except PyErr (Option (List ℚ × List ℚ)) :=
  let w : ℚ := match fwhm with
    | none => kband
    | some f => if f = 0 then kband else f
  if n_points < 6 ∧ n_points > 15 then .ok none
  else do
    let mid ← linspace (-3) 3 (n_points - 2)
    let points := [(-22 : ℚ)] ++ mid ++ [22]
    let points_scaled := points.map (fun i => i * w)
    return some (points, points_scaled)

/-- The per-axis sweep offsets each scaled point by the previous known
correction of that axis:
`dir_points = [i + prev_offsets[direction]['on_minus_off'] for i in points[1]]`
(boresight, line 795). -/
def dir_points (points_scaled : List ℚ) (prev : ℚ) : List ℚ :=
  points_scaled.map (fun i => i + prev)

/-! ## Welch's t-test

Model of `DSS43K2Server.welchs_t_test` (dss43k2_server.py lines
2433-2439).  The computation is numpy scalar arithmetic; `np.sqrt` of a
nonnegative rational is generally irrational, so the model takes the
square root's finite branch as a parameter `sq : ℚ → ℚ`.  Every theorem
below uses `sq` only at arguments where its needed property (`sq 0 = 0`,
or positivity on a positive argument) matches the true square root; the
magnitude of `sq` is never relied upon.  On special values `np.sqrt`
sends `nan` to `nan`, `+inf` to `+inf` and negative values to `nan`. -/

/-- `np.sqrt` on a numpy scalar, with finite branch `sq`. -/
def npSqrt (sq : ℚ → ℚ) : NF → NF
  | .fin q => if q < 0 then .nan else .fin (sq q)
  | .posInf => .posInf
  | .negInf => .nan
  | .nan => .nan

/-- `welchs_t_test(mean1, mean2, sigma1, sigma2, n1, n2)`:
`t = (mean1 - mean2) / np.sqrt(sigma1**2/n1 + sigma2**2/n2)` and the
Welch-Satterthwaite degrees of freedom `mu`. -/
def welchs_t_test (sq : ℚ → ℚ) (mean1 mean2 sigma1 sigma2 n1 n2 : NF) : NF × NF :=
  let t := NF.div (NF.sub mean1 mean2)
    (npSqrt sq (NF.add (NF.div (sigma1.pow 2) n1) (NF.div (sigma2.pow 2) n2)))
  let mu := NF.div
    ((NF.add (NF.div (sigma1.pow 2) n1) (NF.div (sigma2.pow 2) n2)).pow 2)
    (NF.add
      (NF.div (sigma1.pow 4) (NF.mul (n1.pow 2) (NF.sub n1 (.fin 1))))
      (NF.div (sigma2.pow 4) (NF.mul (n2.pow 2) (NF.sub n2 (.fin 1)))))
  (t, mu)

/-! ## Two-beam nod sequencer

Model of `TwoBeamNodWorker.run` (workers/__init__.py lines 242-307).
The run is a loop over `n_cycles` cycles; each cycle checks the
cooperative stop flag, points on source, and on success performs two
feed dwells (feed index 0 then 1), each preceded by a stop check and
followed by a dwell wait that polls the stop flag in 0.01 s increments;
`completed_cycles` is incremented only after both dwells, and
`save_fits` runs at the end of every cycle.  After the loop the feed is
changed back to index 0, the running flag is cleared and
`parent.stop_nodding()` is called.  Whenever a stop check fires, the
method clears the running flag and returns immediately.

The environment abstracts real time: `stopAfter` is the index of the
first `stopped()` check that observes the stop request (the flag is
latching — once set it stays set for the rest of the run);
`dwellChecks d` is the number of stop polls the `d`-th dwell performs
before its `time_per_scan` elapses; `pointResp n` is the truthiness of
the `point_onsource` response in loop iteration `n`.  The constant
el/xel offsets passed to `feed_change` play no role in the claims and
are not recorded. -/

/-- Observable events of a nod run: status callbacks (`cb_updates`)
carrying `feed_status` and the current scan number, feed changes,
`parent.save_fits()` and `parent.stop_nodding()` calls. -/
inductive NodEvent where
  | update (feedStatus : ℕ) (scan : ℤ)
  | feedChange (feed : ℕ)
  | saveFits
  | stopNodding
deriving DecidableEq, Repr

/-- Abstraction of the run's environment (time, hardware responses and
the moment the stop request becomes visible). -/
structure NodEnv where
  stopAfter : Option ℕ
  pointResp : ℕ → Bool
  dwellChecks : ℕ → ℕ

/-- Result of `self.stopped()` at the `c`-th check of the run. -/
def stoppedAt (env : NodEnv) (c : ℕ) : Bool :=
  match env.stopAfter with
  | none => false
  | some s => decide (s ≤ c)

/-- Whether a dwell that polls `stopped()` at check indices
`c, c+1, …, c+k-1` observes the stop request. -/
def dwellStop (env : NodEnv) (c k : ℕ) : Bool :=
  match env.stopAfter with
  | none => false
  | some s => decide (0 < k ∧ s < c + k)

/-- Final state of a nod run: the event trace, the `_running` flag, the
`completed_cycles` counter, the final `n_scan`, and whether the run
returned early from a `stopped()` check. -/
structure NodResult where
  trace : List NodEvent
  running : Bool
  completed : ℕ
  nScan : ℤ
  stoppedEarly : Bool
deriving DecidableEq, Repr

/-- Outcome of one feed iteration (`for i in xrange(2)` body):
either the run stops, or it continues with updated check and dwell
counters and the events it emitted. -/
inductive FeedOut where
  | stop (trace : List NodEvent) (nScan : ℤ)
  | cont (trace : List NodEvent) (c d : ℕ) (nScan : ℤ)

/-- One feed iteration: stop check; `n_scan = -1` and the
feed-changing status update; `feed_change(i)`;
`n_scan = 2*completed_cycles + i + 1` and the on-feed status update;
then the dwell wait polling `stopped()`. -/
def feedIter (env : NodEnv) (completed i c d : ℕ) (nScan : ℤ) : FeedOut :=
  if stoppedAt env c then .stop [] nScan
  else
    let scan : ℤ := 2 * completed + i + 1
    let evs := [NodEvent.update 0 (-1), NodEvent.feedChange i,
                NodEvent.update (i + 1) scan]
    let k := env.dwellChecks d
    if dwellStop env (c + 1) k then .stop evs scan
    else .cont evs (c + 1 + k) (d + 1) scan

/-- The cycle loop of `TwoBeamNodWorker.run`, with `r` cycles remaining
and `n` the current loop index. -/
def runFrom (env : NodEnv) (r n c d completed : ℕ) (nScan : ℤ) : NodResult :=
  match r with
  | 0 =>
      -- loop finished: feed_change(0); self._running.clear(); parent.stop_nodding()
      { trace := [.feedChange 0, .stopNodding], running := false,
        completed := completed, nScan := nScan, stoppedEarly := false }
  | r' + 1 =>
      if stoppedAt env c then
        { trace := [], running := false, completed := completed,
          nScan := nScan, stoppedEarly := true }
      else if env.pointResp n then
        match feedIter env completed 0 (c + 1) d (-1) with
        | .stop tr ns =>
            { trace := tr, running := false, completed := completed,
              nScan := ns, stoppedEarly := true }
        | .cont tr0 c0 d0 ns0 =>
            match feedIter env completed 1 c0 d0 ns0 with
            | .stop tr ns =>
                { trace := tr0 ++ tr, running := false, completed := completed,
                  nScan := ns, stoppedEarly := true }
            | .cont tr1 c1 d1 ns1 =>
                let rest := runFrom env r' (n + 1) c1 d1 (completed + 1) ns1
                { rest with trace := tr0 ++ tr1 ++ [.saveFits] ++ rest.trace }
      else
        let rest := runFrom env r' (n + 1) (c + 1) d completed (-1)
        { rest with trace := .saveFits :: rest.trace }

/-- `TwoBeamNodWorker.run` for `n_cycles` cycles: `_running.set()`,
then the cycle loop starting from `completed_cycles = 0` and
`n_scan = -1` (set in `__init__`). -/
def nodRun (env : NodEnv) (ncycles : ℕ) : NodResult :=
  runFrom env ncycles 0 0 0 0 (-1)

/-- The scan numbers emitted through `cb_updates`, in order. -/
def scansOf (tr : List NodEvent) : List ℤ :=
  tr.filterMap (fun e => match e with | .update _ s => some s | _ => none)

/-- The argument of the last `feed_change` command in a trace (the feed
the antenna is left on). -/
def lastFeed (tr : List NodEvent) : Option ℕ :=
  tr.foldl (fun acc e => match e with | .feedChange i => some i | _ => acc) none

/-- Concrete cancellation scenario: 3 cycles, pointing always succeeds,
each dwell polls the stop flag twice, and the stop request becomes
visible at check index 12, which is during the second dwell of the
second cycle. -/
def nodStopEnv : NodEnv :=
  { stopAfter := some 12, pointResp := fun _ => true, dwellChecks := fun _ => 2 }

/-- Stop-free scenario used to exercise a complete run. -/
def nodFreeEnv : NodEnv :=
  { stopAfter := none, pointResp := fun _ => true, dwellChecks := fun _ => 1 }

/-! ## Telemetry poller error handling

Model of the per-iteration body shared by `PowerMeterWorker.run`
(workers/__init__.py lines 122-146), `APCWorker.run` (lines 184-210)
and `RMSWorker.run` (lines 67-86).  Each iteration queries the device,
invokes `self.cb_updates(...)` catching `ConnectionClosedError` and
`CommunicationError` (incrementing the respective counter), and then,
when either counter has reached its threshold, replaces `cb_updates`
with a no-op lambda.  Nothing ever resets the counters or restores the
callback, and the loop itself (driven by `@iterativeRun`) keeps
iterating: no branch breaks out of it. -/

/-- What happens when an iteration invokes the original callback. -/
inductive PollOutcome where
  | success
  | commError
  | connError
deriving DecidableEq, Repr

/-- Error-handling state of a poller worker: the two error counters and
whether `cb_updates` has been replaced by the no-op lambda. -/
structure PollerState where
  connErrors : ℕ
  commErrors : ℕ
  cbReplaced : Bool
deriving DecidableEq, Repr

/-- State after `__init__`: both counters zero, original callback in
place. -/
def pollInit : PollerState := ⟨0, 0, false⟩

/-- One loop iteration.  Returns the new state and whether the original
callback was invoked this iteration.  Once `cb_updates` is the no-op,
invoking it raises nothing, so the counters can never change again and
the threshold checks only re-install the no-op. -/
def pollStep (maxConn maxComm : ℕ) (s : PollerState) (o : PollOutcome) :
    PollerState × Bool :=
  if s.cbReplaced then (s, false)
  else
    let s1 :=
      match o with
      | .success => s
      | .commError => { s with commErrors := s.commErrors + 1 }
      | .connError => { s with connErrors := s.connErrors + 1 }
    let replaced := decide (maxConn ≤ s1.connErrors) || decide (maxComm ≤ s1.commErrors)
    ({ s1 with cbReplaced := replaced }, true)

/-- Run the polling loop over a sequence of iteration outcomes,
returning the final state and the number of iterations that invoked the
original callback. -/
def pollRun (maxConn maxComm : ℕ) (s : PollerState) :
    List PollOutcome → PollerState × ℕ
  | [] => (s, 0)
  | o :: rest =>
      let (s1, inv) := pollStep maxConn maxComm s o
      let (sf, k) := pollRun maxConn maxComm s1 rest
      (sf, (if inv then 1 else 0) + k)

/-! ## Orchestration server state

Model of the `DSS43K2Server` per-procedure `running` flags and the
tipping status attribute (dss43k2_server.py).  Events are the flag
mutations that the procedure entry points, exits and `stop_*` methods
perform; every entry point sets its flag unconditionally — none of
`boresight` (line 747), `minical_new` (line 573), `minical` (line 645),
`tipping` (line 1050) or `record_data` (line 1602) reads any running
flag before starting.  `_tipping_info` is assigned in `__init__`
(line 215) and mutated by the tipping code, but the `tipping_info`
property getter (line 281) returns `self._tipping_infow`, an attribute
that no code path ever assigns; reading an unassigned attribute raises
`AttributeError`. -/

/-- Flag-level state of the orchestration server.  `tippingInfoW`
models the `_tipping_infow` attribute slot: `none` while unassigned. -/
structure ServerState where
  boresightRunning : Bool
  minicalRunning : Bool
  tippingRunning : Bool
  dataAcqRunning : Bool
  pointingRunning : Bool
  tippingInfoW : Option Bool
deriving DecidableEq, Repr

/-- State after `DSS43K2Server.__init__` (lines 209-216): every
`running` flag `False`; `_tipping_infow` never assigned. -/
def initServer : ServerState :=
  { boresightRunning := false, minicalRunning := false, tippingRunning := false,
    dataAcqRunning := false, pointingRunning := false, tippingInfoW := none }

/-- The running-flag mutations the server methods perform. -/
inductive ServerEvent where
  | boresightStart      -- boresight, line 748: sets the flag, no check
  | boresightFinish     -- boresight, line 888
  | stopBoresight       -- stop_boresight, line 694
  | minicalNewStart     -- minical_new, line 573: sets the flag, no check
  | minicalNewFinish    -- minical_new, line 627
  | minicalStart        -- minical, line 645: sets the flag, no check
  | minicalFinish       -- minical, line 663
  | tippingStart        -- tipping, line 1050: sets the flag, no check
  | tippingFinish       -- tipping, line 1115
  | stopTipping         -- stop_tipping, line 1127
  | recordDataStart     -- record_data, line 1602: sets the flag, no check
  | stopNoddingDone     -- stop_nodding, lines 1757/1765
  | pointOnsourceStart  -- point_onsource, line 1139
  | pointOnsourceFinish -- point_onsource, line 1175
  | setBoresightRunning (b : Bool)  -- set_boresight_running, line 265
  | setPointingRunning (b : Bool)   -- set_pointing_running, line 277
  | setTippingRunning (b : Bool)    -- set_tipping_running, line 285
  | setMinicalRunning (b : Bool)    -- set_minical_running, line 293
deriving DecidableEq, Repr

/-- Effect of each event on the server state.  No event touches
`tippingInfoW`: no method ever assigns `_tipping_infow`. -/
def serverStep (s : ServerState) : ServerEvent → ServerState
  | .boresightStart => { s with boresightRunning := true }
  | .boresightFinish => { s with boresightRunning := false }
  | .stopBoresight => { s with boresightRunning := false }
  | .minicalNewStart => { s with minicalRunning := true }
  | .minicalNewFinish => { s with minicalRunning := false }
  | .minicalStart => { s with minicalRunning := true }
  | .minicalFinish => { s with minicalRunning := false }
  | .tippingStart => { s with tippingRunning := true }
  | .tippingFinish => { s with tippingRunning := false }
  | .stopTipping => { s with tippingRunning := false }
  | .recordDataStart => { s with dataAcqRunning := true }
  | .stopNoddingDone => { s with dataAcqRunning := false }
  | .pointOnsourceStart => { s with pointingRunning := true }
  | .pointOnsourceFinish => { s with pointingRunning := false }
  | .setBoresightRunning b => { s with boresightRunning := b }
  | .setPointingRunning b => { s with pointingRunning := b }
  | .setTippingRunning b => { s with tippingRunning := b }
  | .setMinicalRunning b => { s with minicalRunning := b }

/-- States the server can reach from `__init__` under any sequence of
method calls. -/
inductive ServerReachable : ServerState → Prop where
  | init : ServerReachable initServer
  | step {s : ServerState} (e : ServerEvent) :
      ServerReachable s → ServerReachable (serverStep s e)

/-- How many of the four long-running procedures guarded by the claimed
invariant (nod-cycle data acquisition, boresight, tipping, minical)
are currently `running`. -/
def runningCount (s : ServerState) : ℕ :=
  (if s.boresightRunning then 1 else 0) + (if s.minicalRunning then 1 else 0) +
    (if s.tippingRunning then 1 else 0) + (if s.dataAcqRunning then 1 else 0)

/-- The `tipping_info` property getter (line 281):
`return self._tipping_infow`.  Reading an unassigned attribute raises
`AttributeError`. -/
def tipping_info (s : ServerState) : Except PyErr Bool :=
  match s.tippingInfoW with
  | none => .error .attributeError
  | some v => .ok v

/-- A reachable state with two procedures running at once: start
boresight, then start a minical while the boresight is still running. -/
def doubleRunState : ServerState :=
  serverStep (serverStep initServer .boresightStart) .minicalNewStart

/-- The scan numbers a stop-free, always-on-source nod run emits, as a
function of the completed-cycle counter at entry and the cycles left:
each cycle contributes `[-1, 2c+1, -1, 2c+2]`. -/
def scanList (c : ℕ) : ℕ → List ℤ
  | 0 => []
  | r + 1 => [-1, 2 * (c : ℤ) + 0 + 1, -1, 2 * (c : ℤ) + 1 + 1] ++ scanList (c + 1) r


/-- A `cal_data` input whose `zero` vector has a single entry while all
other vectors have four: numpy length-1 broadcasting makes every
elementwise operation succeed. -/
def bcastShortInput : CalData :=
  { zero := [0], sky := [1, 2, 3, 4], skyND := [1, 1, 1, 1],
    load := [2, 2, 2, 2], loadND := [3, 3, 3, 3], Tload := [300, 300, 300, 300] }

/-- An equal-length input with `L = 4`. -/
def calFour : CalData :=
  { zero := [1, 2, 3, 4], sky := [5, 6, 7, 8], skyND := [9, 10, 11, 12],
    load := [13, 14, 15, 16], loadND := [17, 18, 19, 20],
    Tload := [300, 300, 300, 300] }

/-- An equal-length input with `L = 3`. -/
def calThree : CalData :=
  { zero := [1, 2, 3], sky := [5, 6, 7], skyND := [9, 10, 11],
    load := [13, 14, 15], loadND := [17, 18, 19], Tload := [300, 300, 300] }

/-! ## Theorems -/

theorem bcast_ok (f : NF → NF → NF) {a b : List NF} (h : a.length = b.length) :
    bcast f a b = .ok (List.zipWith f a b) := by
  simp [bcast, h]

theorem ok_bind {α β : Type} (a : α) (f : α → Except PyErr β) :
    (Except.ok a >>= f) = f a := rfl

theorem error_bind {α β : Type} (e : PyErr) (f : α → Except PyErr β) :
    (Except.error e >>= (f : α → Except PyErr β)) = Except.error e := rfl


/-- In every reachable server state the `_tipping_infow` attribute slot
is still unassigned: `__init__` does not assign it and no event does. -/
theorem serverReachable_tippingInfoW {s : ServerState} (h : ServerReachable s) :
    s.tippingInfoW = none := by
  induction h with
  | init => rfl
  | step e _ ih => cases e <;> simpa [serverStep] using ih

/-- C9: Every read of the server's `tipping_info` status property
raises an `AttributeError` in every reachable state of the server: the
getter returns `self._tipping_infow` (a typo for `_tipping_info`),
an attribute that is never assigned. -/
theorem tipping_info_always_raises (s : ServerState) (h : ServerReachable s) :
    tipping_info s = .error .attributeError := by
  unfold tipping_info
  rw [serverReachable_tippingInfoW h]

/-- Witness for C9: the getter already raises in the initial state. -/
theorem tipping_info_always_raises_witness :
    ServerReachable initServer ∧ tipping_info initServer = .error .attributeError :=
  ⟨ServerReachable.init, tipping_info_always_raises initServer ServerReachable.init⟩

/-- C2 counterexample: the state reached by starting a boresight and
then a minical is reachable and has two of the four guarded procedures
running at once, so "at most one of the nod-cycle, boresight, tipping
and minical procedures is running in every reachable state" is false,
and the minical entry performed no running-flag check that could have
rejected it. -/
theorem running_flags_mutual_exclusion_cex :
    ServerReachable doubleRunState ∧ 2 ≤ runningCount doubleRunState ∧
      doubleRunState.boresightRunning = true ∧ doubleRunState.minicalRunning = true :=
  ⟨ServerReachable.step .minicalNewStart (ServerReachable.step .boresightStart
      ServerReachable.init),
    by decide, by decide, by decide⟩

/-- C2 amended: none of the four procedure entry points checks any
running flag — each sets its own flag `True` unconditionally from every
state — and consequently a reachable state exists in which two of the
procedures are running simultaneously. -/
theorem running_flags_unguarded_entry_amended :
    (∀ s : ServerState,
      (serverStep s .boresightStart).boresightRunning = true ∧
      (serverStep s .minicalNewStart).minicalRunning = true ∧
      (serverStep s .minicalStart).minicalRunning = true ∧
      (serverStep s .tippingStart).tippingRunning = true ∧
      (serverStep s .recordDataStart).dataAcqRunning = true) ∧
    ∃ s : ServerState, ServerReachable s ∧ 2 ≤ runningCount s := by
  refine ⟨fun s => ⟨rfl, rfl, rfl, rfl, rfl⟩, doubleRunState, ?_, by decide⟩
  exact ServerReachable.step .minicalNewStart (ServerReachable.step .boresightStart
    ServerReachable.init)

/-- From a state whose callback is already the no-op, no later iteration
invokes the original callback and the state no longer changes. -/
theorem pollRun_replaced (maxConn maxComm : ℕ) :
    ∀ (tr : List PollOutcome) (s : PollerState), s.cbReplaced = true →
      pollRun maxConn maxComm s tr = (s, 0) := by
  intro tr
  induction tr with
  | nil => intro s _; rfl
  | cons o rest ih =>
      intro s hs
      simp only [pollRun, pollStep, hs, if_true]
      simpa using ih s hs

/-- Processing `k` consecutive communication failures from a live state
whose communication counter is `k` short of the threshold replaces the
callback at exactly the `k`-th failure; the original callback is
invoked in those `k` iterations and in none of the iterations that
follow, whatever they are. -/
theorem pollRun_comm_block (maxConn maxComm : ℕ) :
    ∀ (k : ℕ) (s : PollerState) (rest : List PollOutcome),
      s.cbReplaced = false → s.connErrors < maxConn →
      s.commErrors + k = maxComm → 0 < k →
      (pollRun maxConn maxComm s (List.replicate k .commError ++ rest)).1.cbReplaced = true ∧
      (pollRun maxConn maxComm s (List.replicate k .commError ++ rest)).2 = k := by
  intro k
  induction k with
  | zero => intro s rest _ _ _ hk; omega
  | succ k ih =>
      intro s rest hrep hconn hcomm _
      have hstep : pollStep maxConn maxComm s .commError =
          (⟨s.connErrors, s.commErrors + 1,
            decide (maxConn ≤ s.connErrors) || decide (maxComm ≤ s.commErrors + 1)⟩, true) := by
        simp [pollStep, hrep]
      rcases Nat.eq_zero_or_pos k with hk0 | hkpos
      · subst hk0
        have hr : (decide (maxConn ≤ s.connErrors) ||
            decide (maxComm ≤ s.commErrors + 1)) = true := by
          have h2 : maxComm ≤ s.commErrors + 1 := by omega
          simp [h2]
        rw [hr] at hstep
        have hrepl := pollRun_replaced maxConn maxComm rest
          ⟨s.connErrors, s.commErrors + 1, true⟩ rfl
        simp only [List.replicate_succ, List.replicate_zero, List.cons_append,
          List.nil_append, pollRun, hstep, List.append_eq, hrepl]
        simp
      · have hr : (decide (maxConn ≤ s.connErrors) ||
            decide (maxComm ≤ s.commErrors + 1)) = false := by
          have h1 : ¬ maxConn ≤ s.connErrors := by omega
          have h2 : ¬ maxComm ≤ s.commErrors + 1 := by omega
          simp [h1, h2]
        rw [hr] at hstep
        have step := ih ⟨s.connErrors, s.commErrors + 1, false⟩ rest rfl
          (by simpa using hconn) (by simp; omega) hkpos
        simp only [List.replicate_succ, List.cons_append, pollRun, hstep,
          List.append_eq]
        refine ⟨step.1, ?_⟩
        rw [step.2]
        simp only [if_true]
        omega

/-- C5: starting from a fresh poller with thresholds
`max_connection_closed_errors` and `max_communication_errors` (both
positive; the source default is 3), after exactly
`max_communication_errors` consecutive communication failures the
update callback is permanently replaced by the no-op, and over the
whole remaining run — whatever its outcomes `rest` — the original
callback is invoked exactly `max_communication_errors` times, i.e.
never after the replacement; the loop keeps processing `rest` (the
thread stays alive: no branch of the iteration body terminates the
`@iterativeRun` loop). -/
theorem poller_callback_silencing (maxConn maxComm : ℕ) (rest : List PollOutcome)
    (hconn : 0 < maxConn) (hcomm : 0 < maxComm) :
    (pollRun maxConn maxComm pollInit
        (List.replicate maxComm .commError ++ rest)).1.cbReplaced = true ∧
    (pollRun maxConn maxComm pollInit
        (List.replicate maxComm .commError ++ rest)).2 = maxComm :=
  pollRun_comm_block maxConn maxComm maxComm pollInit rest rfl hconn (by simp [pollInit]) hcomm

/-- Witness for C5 at the source defaults (3 and 3) with two further
iterations after the silencing. -/
theorem poller_callback_silencing_witness :
    0 < 3 ∧ 0 < 3 ∧
    ((pollRun 3 3 pollInit
        (List.replicate 3 .commError ++ [.success, .commError])).1.cbReplaced = true ∧
      (pollRun 3 3 pollInit
        (List.replicate 3 .commError ++ [.success, .commError])).2 = 3) :=
  ⟨by decide, by decide, poller_callback_silencing 3 3 [.success, .commError]
      (by decide) (by decide)⟩

/-- Any nod run that returns from a `stopped()` check ends with the
running flag cleared and strictly fewer completed cycles than the
cycles it still had to run. -/
theorem runFrom_stop_result (env : NodEnv) :
    ∀ (r n c d completed : ℕ) (ns : ℤ),
      (runFrom env r n c d completed ns).stoppedEarly = true →
      (runFrom env r n c d completed ns).running = false ∧
      (runFrom env r n c d completed ns).completed < completed + r := by
  intro r
  induction r with
  | zero => intro n c d completed ns h; simp [runFrom] at h
  | succ r ih =>
      intro n c d completed ns h
      by_cases hst : stoppedAt env c = true
      · unfold runFrom
        rw [if_pos hst]
        exact ⟨rfl, by show completed < completed + (r + 1); omega⟩
      · by_cases hpr : env.pointResp n = true
        · cases hfi : feedIter env completed 0 (c + 1) d (-1) with
          | stop tr0 ns0 =>
              unfold runFrom
              rw [if_neg hst, if_pos hpr]
              simp only [hfi]
              exact ⟨trivial, by show completed < completed + (r + 1); omega⟩
          | cont tr0 c0 d0 ns0 =>
              cases hfi2 : feedIter env completed 1 c0 d0 ns0 with
              | stop tr1 ns1 =>
                  unfold runFrom
                  rw [if_neg hst, if_pos hpr]
                  simp only [hfi, hfi2]
                  exact ⟨trivial, by show completed < completed + (r + 1); omega⟩
              | cont tr1 c1 d1 ns1 =>
                  unfold runFrom at h ⊢
                  rw [if_neg hst, if_pos hpr] at h ⊢
                  simp only [hfi, hfi2] at h ⊢
                  have hrec := ih (n + 1) c1 d1 (completed + 1) ns1 h
                  exact ⟨hrec.1, by have := hrec.2; omega⟩
        · unfold runFrom at h ⊢
          rw [if_neg hst, if_neg hpr] at h ⊢
          simp only at h ⊢
          have hrec := ih (n + 1) (c + 1) d completed (-1) h
          exact ⟨hrec.1, by have := hrec.2; omega⟩

/-- C1 counterexample: in the concrete scenario `nodStopEnv` —
`n_cycles = 3`, pointing always succeeds, stop requested mid-way
through the second cycle (observed during the feed-2 dwell) — the run
does stop early with the running flag `False` and `completed_cycles =
1 < 3`, but the last `feed_change` the run issued is to feed index 1,
not the claimed final restore to feed index 0: the `stopped()` branches
of `TwoBeamNodWorker.run` return immediately without touching the
feed, and the `feed_change(0, ...)` on line 303 runs only after a loop
that completed all cycles. -/
theorem nod_cancel_no_feed_restore_cex :
    (nodRun nodStopEnv 3).stoppedEarly = true ∧
    (nodRun nodStopEnv 3).running = false ∧
    (nodRun nodStopEnv 3).completed = 1 ∧
    lastFeed (nodRun nodStopEnv 3).trace = some 1 ∧
    lastFeed (nodRun nodStopEnv 3).trace ≠ some 0 := by
  refine ⟨by decide, by decide, by decide, by decide, by decide⟩

/-- C1 amended: when a stop request is observed mid-run (at a cycle
boundary, before a feed change, or during a dwell), the nod run
terminates with the running flag `False` and `completed_cycles`
strictly less than `n_cycles`; no final feed restore is issued on this
path (the feed-change to index 0 happens only after a fully completed
loop). -/
theorem nod_cancel_terminates_amended (env : NodEnv) (ncycles : ℕ)
    (h : (nodRun env ncycles).stoppedEarly = true) :
    (nodRun env ncycles).running = false ∧
    (nodRun env ncycles).completed < ncycles := by
  have := runFrom_stop_result env ncycles 0 0 0 0 (-1) h
  simpa [nodRun] using this

/-- Witness for the amended C1 at the concrete cancellation scenario. -/
theorem nod_cancel_terminates_amended_witness :
    (nodRun nodStopEnv 3).stoppedEarly = true ∧
    ((nodRun nodStopEnv 3).running = false ∧ (nodRun nodStopEnv 3).completed < 3) :=
  ⟨by decide, nod_cancel_terminates_amended nodStopEnv 3 (by decide)⟩

theorem stoppedAt_none {env : NodEnv} (hs : env.stopAfter = none) (c : ℕ) :
    stoppedAt env c = false := by
  simp [stoppedAt, hs]

theorem dwellStop_none {env : NodEnv} (hs : env.stopAfter = none) (c k : ℕ) :
    dwellStop env c k = false := by
  simp [dwellStop, hs]

/-- Without a stop request a feed iteration always continues, emitting
the feed-changing update, the feed change and the on-feed update with
scan number `2*completed + i + 1`. -/
theorem feedIter_noStop {env : NodEnv} (hs : env.stopAfter = none)
    (completed i c d : ℕ) (ns : ℤ) :
    feedIter env completed i c d ns =
      .cont [NodEvent.update 0 (-1), NodEvent.feedChange i,
             NodEvent.update (i + 1) (2 * (completed : ℤ) + i + 1)]
        (c + 1 + env.dwellChecks d) (d + 1) (2 * (completed : ℤ) + i + 1) := by
  simp [feedIter, stoppedAt_none hs, dwellStop_none hs]

theorem scansOf_nil : scansOf [] = [] := rfl

theorem scansOf_append (a b : List NodEvent) :
    scansOf (a ++ b) = scansOf a ++ scansOf b := by
  simp [scansOf]

theorem scansOf_cons_update (f : ℕ) (s : ℤ) (t : List NodEvent) :
    scansOf (.update f s :: t) = s :: scansOf t := by
  simp [scansOf]

theorem scansOf_cons_feedChange (i : ℕ) (t : List NodEvent) :
    scansOf (.feedChange i :: t) = scansOf t := by
  simp [scansOf]

theorem scansOf_cons_saveFits (t : List NodEvent) :
    scansOf (.saveFits :: t) = scansOf t := by
  simp [scansOf]

theorem scansOf_cons_stopNodding (t : List NodEvent) :
    scansOf (.stopNodding :: t) = scansOf t := by
  simp [scansOf]

/-- Closed form of the emitted scan numbers of a stop-free,
always-on-source run. -/
theorem runFrom_scans {env : NodEnv} (hs : env.stopAfter = none)
    (hp : env.pointResp = fun _ => true) :
    ∀ (r n c d completed : ℕ) (ns : ℤ),
      scansOf (runFrom env r n c d completed ns).trace = scanList completed r := by
  intro r
  induction r with
  | zero => intro n c d completed ns; simp [runFrom, scansOf, scanList]
  | succ r ih =>
      intro n c d completed ns
      have hpr : env.pointResp n = true := by rw [hp]
      unfold runFrom
      rw [if_neg (by simp [stoppedAt_none hs]), if_pos hpr]
      simp only [feedIter_noStop hs]
      simp only [scansOf_append, scansOf_cons_update, scansOf_cons_feedChange,
        scansOf_cons_saveFits, scansOf_cons_stopNodding, scansOf_nil]
      rw [ih]
      simp only [scanList, List.cons_append, List.nil_append]
      push_cast
      norm_num

/-- Every entry of `scanList c r` is bounded by the last scan number. -/
theorem scanList_le : ∀ (r c : ℕ) (s : ℤ), s ∈ scanList c r → s ≤ 2 * ((c : ℤ) + r) := by
  intro r
  induction r with
  | zero => intro c s h; simp [scanList] at h
  | succ r ih =>
      intro c s h
      simp only [scanList, List.cons_append, List.nil_append, List.mem_cons] at h
      rcases h with rfl | rfl | rfl | rfl | h
      · omega
      · omega
      · omega
      · omega
      · have := ih (c + 1) s h
        push_cast at this ⊢
        omega

/-- The last scan number `2*(c+r)` is emitted whenever at least one
cycle runs. -/
theorem scanList_mem_top : ∀ (r c : ℕ), 1 ≤ r → (2 * ((c : ℤ) + r)) ∈ scanList c r := by
  intro r
  induction r with
  | zero => intro c h; omega
  | succ r ih =>
      intro c _
      rcases Nat.eq_zero_or_pos r with hr0 | hrpos
      · subst hr0
        simp only [scanList, List.cons_append, List.nil_append, List.mem_cons]
        right; right; right; left
        push_cast
        ring
      · simp only [scanList, List.cons_append, List.nil_append, List.mem_cons]
        right; right; right; right
        have := ih (c + 1) hrpos
        have heq : (2 * ((c : ℤ) + ((r + 1 : ℕ) : ℤ))) = 2 * (((c + 1 : ℕ) : ℤ) + r) := by
          push_cast; ring
        rw [heq]
        exact this

/-- Every entry of `scanList c r` is the sentinel `-1` or has the form
`2*(c+j) + i + 1` for a cycle offset `j < r` and feed index `i < 2`. -/
theorem scanList_form : ∀ (r c : ℕ) (s : ℤ), s ∈ scanList c r →
    s = -1 ∨ ∃ j i : ℕ, j < r ∧ i < 2 ∧ s = 2 * ((c : ℤ) + j) + i + 1 := by
  intro r
  induction r with
  | zero => intro c s h; simp [scanList] at h
  | succ r ih =>
      intro c s h
      simp only [scanList, List.cons_append, List.nil_append, List.mem_cons] at h
      rcases h with rfl | rfl | rfl | rfl | h
      · exact Or.inl rfl
      · exact Or.inr ⟨0, 0, by omega, by omega, by push_cast; ring⟩
      · exact Or.inl rfl
      · exact Or.inr ⟨0, 1, by omega, by omega, by push_cast; ring⟩
      · rcases ih (c + 1) s h with h1 | ⟨j, i, hj, hi, hform⟩
        · exact Or.inl h1
        · refine Or.inr ⟨j + 1, i, by omega, hi, ?_⟩
          rw [hform]
          push_cast
          ring

/-- Filtering the sentinels out of one cycle's block keeps exactly its
two scan numbers. -/
theorem scanList_filter_succ (r c : ℕ) :
    (scanList c (r + 1)).filter (fun s => decide (s ≠ -1)) =
      (2 * (c : ℤ) + 0 + 1) :: (2 * (c : ℤ) + 1 + 1) ::
        (scanList (c + 1) r).filter (fun s => decide (s ≠ -1)) := by
  have h1 : (2 * (c : ℤ) + 0 + 1) ≠ -1 := by omega
  have h2 : (2 * (c : ℤ) + 1 + 1) ≠ -1 := by omega
  simp only [scanList, List.cons_append, List.nil_append, List.filter_cons,
    decide_eq_true h1, decide_eq_true h2,
    decide_eq_false (show ¬((-1 : ℤ) ≠ -1) by omega)]
  simp

/-- Head of the sentinel-free scan sequence of a nonempty run. -/
theorem scanList_filter_head (r c : ℕ) (hr : r ≠ 0) :
    ((scanList c r).filter (fun s => decide (s ≠ -1))).head? =
      some (2 * (c : ℤ) + 0 + 1) := by
  cases r with
  | zero => omega
  | succ r => rw [scanList_filter_succ]; rfl

/-- Ignoring the `-1` sentinels, the scan numbers of a stop-free run
are strictly increasing. -/
theorem scanList_chain : ∀ (r c : ℕ),
    List.Chain' (· < ·) ((scanList c r).filter (fun s => decide (s ≠ -1))) := by
  intro r
  induction r with
  | zero => intro c; simp [scanList]
  | succ r ih =>
      intro c
      rw [scanList_filter_succ]
      rcases Nat.eq_zero_or_pos r with hr0 | hrpos
      · subst hr0
        simp [scanList]
        try omega
      · rw [List.chain'_cons]
        refine ⟨by omega, ?_⟩
        rw [List.chain'_cons']
        refine ⟨?_, ih (c + 1)⟩
        intro y hy
        rw [scanList_filter_head r (c + 1) (by omega)] at hy
        simp only [Option.mem_def, Option.some.injEq] at hy
        subst hy
        push_cast
        omega

/-- C3: in a stop-free Two-Beam Nod run of `n_cycles ≥ 1` cycles in
which every `point_onsource` succeeds, every emitted scan number is
either the sentinel `-1` or equals `2*completed_cycles + feed_index + 1`
for the cycle (`completed_cycles < n_cycles`) and feed index (`< 2`)
during which it was emitted; the maximum scan number emitted over the
run equals `2*n_cycles`; and, ignoring the `-1` sentinels, the emitted
scan numbers are strictly increasing. -/
theorem nod_scan_numbering (env : NodEnv) (ncycles : ℕ)
    (hs : env.stopAfter = none) (hp : env.pointResp = fun _ => true)
    (hn : 1 ≤ ncycles) :
    (∀ s ∈ scansOf (nodRun env ncycles).trace,
        s = -1 ∨ ∃ cyc i : ℕ, cyc < ncycles ∧ i < 2 ∧ s = 2 * (cyc : ℤ) + i + 1) ∧
    ((2 * (ncycles : ℤ)) ∈ scansOf (nodRun env ncycles).trace ∧
      ∀ s ∈ scansOf (nodRun env ncycles).trace, s ≤ 2 * (ncycles : ℤ)) ∧
    List.Chain' (· < ·)
      ((scansOf (nodRun env ncycles).trace).filter (fun s => decide (s ≠ -1))) := by
  have hcf : scansOf (nodRun env ncycles).trace = scanList 0 ncycles :=
    runFrom_scans hs hp ncycles 0 0 0 0 (-1)
  rw [hcf]
  refine ⟨?_, ⟨?_, ?_⟩, scanList_chain ncycles 0⟩
  · intro s hmem
    rcases scanList_form ncycles 0 s hmem with h1 | ⟨j, i, hj, hi, hform⟩
    · exact Or.inl h1
    · exact Or.inr ⟨j, i, hj, hi, by rw [hform]; push_cast; ring⟩
  · have := scanList_mem_top ncycles 0 hn
    simpa using this
  · intro s hmem
    have := scanList_le ncycles 0 s hmem
    simpa using this

/-- Witness for C3: the stop-free three-cycle scenario. -/
theorem nod_scan_numbering_witness :
    nodFreeEnv.stopAfter = none ∧ nodFreeEnv.pointResp = (fun _ => true) ∧ 1 ≤ 3 ∧
    ((∀ s ∈ scansOf (nodRun nodFreeEnv 3).trace,
        s = -1 ∨ ∃ cyc i : ℕ, cyc < 3 ∧ i < 2 ∧ s = 2 * (cyc : ℤ) + i + 1) ∧
      ((2 * ((3 : ℕ) : ℤ)) ∈ scansOf (nodRun nodFreeEnv 3).trace ∧
        ∀ s ∈ scansOf (nodRun nodFreeEnv 3).trace, s ≤ 2 * ((3 : ℕ) : ℤ)) ∧
      List.Chain' (· < ·)
        ((scansOf (nodRun nodFreeEnv 3).trace).filter (fun s => decide (s ≠ -1)))) :=
  ⟨rfl, rfl, by omega, nod_scan_numbering nodFreeEnv 3 rfl rfl (by omega)⟩

/-- C4: the rejection guard of `calc_bs_points` is the unsatisfiable
conjunction `n_points < 6 and n_points > 15` (a slip for `or`; the
branch logs "Boresight for {} points not supported"), so the claimed
rejection never happens: at `n_points = 5`, which the spec says must be
rejected, the function instead returns a full 5-point grid. -/
theorem calc_bs_points_never_rejects :
    calc_bs_points 5 (some 1) 1 =
      .ok (some ([-22, -3, 0, 3, 22], [-22, -3, 0, 3, 22])) ∧
    ∀ n : ℤ, ¬(n < 6 ∧ n > 15) := by
  constructor
  · have h3 : List.range (Int.toNat 3) = [0, 1, 2] := rfl
    norm_num [calc_bs_points, linspace, h3]
  · intro n
    omega

/-- C6: on the literal regression input — all five reading vectors
`[0,0,0,0]` and `Tload = [300,300,300,300]`, so that `R4 == R1`
componentwise — `process_minical_calib` completes and returns a result:
the `T4P/(R4-R1)` division is numpy elementwise arithmetic, which
produces infinities and NaNs with a runtime warning instead of raising
a division error. -/
theorem process_minical_calib_zero_input_ok :
    (process_minical_calib minicalZeroInput).isOk = true := by decide

theorem NF.div_fin_fin (a b : ℚ) :
    NF.div (.fin a) (.fin b) =
      if b = 0 then (if a > 0 then NF.posInf else if a < 0 then NF.negInf else NF.nan)
      else .fin (a / b) := rfl

/-- C8 counterexample: at the equal inputs `mean1 = mean2 = 0`,
`sigma1 = sigma2 = 0`, `n1 = n2 = 1` — two identical (degenerate)
distributions — the denominator is `sqrt(0) = 0` and the t-statistic is
`0/0 = nan`, not `0`.  (The square-root parameter is evaluated only at
`0`, where `np.sqrt(0) = 0` exactly, so the placeholder is faithful
here.) -/
theorem welchs_t_equal_inputs_cex :
    (welchs_t_test (fun q => q) (.fin 0) (.fin 0) (.fin 0) (.fin 0)
        (.fin 1) (.fin 1)).1 = NF.nan ∧
    (welchs_t_test (fun q => q) (.fin 0) (.fin 0) (.fin 0) (.fin 0)
        (.fin 1) (.fin 1)).1 ≠ NF.fin 0 := by
  have h : (welchs_t_test (fun q => q) (.fin 0) (.fin 0) (.fin 0) (.fin 0)
      (.fin 1) (.fin 1)).1 = NF.nan := by
    norm_num [welchs_t_test, NF.pow, NF.powQ, NF.div, NF.add, NF.sub, NF.neg, npSqrt]
  exact ⟨h, by rw [h]; decide⟩

/-- C8 amended: for equal finite inputs `mean1 = mean2`,
`sigma1 = sigma2 = s` and `n1 = n2 = n` with `s ≠ 0` and `n > 0` (a
nondegenerate pair of identical distributions), the t-statistic is
exactly `0`.  The hypothesis on `sq` states that the square root of the
(positive) denominator `sigma**2/n + sigma**2/n` is positive, which
holds for the true `np.sqrt`. -/
theorem welchs_t_equal_inputs_amended (sq : ℚ → ℚ) (m s n : ℚ)
    (hs : s ≠ 0) (hn : 0 < n)
    (hsq : 0 < sq (NF.powQ s 2 / n + NF.powQ s 2 / n)) :
    (welchs_t_test sq (.fin m) (.fin m) (.fin s) (.fin s) (.fin n) (.fin n)).1 =
      NF.fin 0 := by
  have hn0 : n ≠ 0 := ne_of_gt hn
  have hs2 : 0 < NF.powQ s 2 := by
    have := mul_self_pos.mpr hs
    show 0 < s * (s * 1)
    simpa [mul_one] using this
  have hpos : 0 < NF.powQ s 2 / n + NF.powQ s 2 / n :=
    add_pos (div_pos hs2 hn) (div_pos hs2 hn)
  have harg : ¬(NF.powQ s 2 / n + NF.powQ s 2 / n < 0) := not_lt.mpr (le_of_lt hpos)
  have hsq0 : sq (NF.powQ s 2 / n + NF.powQ s 2 / n) ≠ 0 := ne_of_gt hsq
  show NF.div (NF.sub (.fin m) (.fin m))
      (npSqrt sq (NF.add (NF.div ((NF.fin s).pow 2) (.fin n))
        (NF.div ((NF.fin s).pow 2) (.fin n)))) = NF.fin 0
  rw [show (NF.fin s).pow 2 = NF.fin (NF.powQ s 2) from rfl]
  rw [NF.div_fin_fin, if_neg hn0]
  rw [show NF.add (NF.fin (NF.powQ s 2 / n)) (NF.fin (NF.powQ s 2 / n)) =
    NF.fin (NF.powQ s 2 / n + NF.powQ s 2 / n) from rfl]
  rw [show npSqrt sq (NF.fin (NF.powQ s 2 / n + NF.powQ s 2 / n)) =
      if (NF.powQ s 2 / n + NF.powQ s 2 / n) < 0 then NF.nan
      else NF.fin (sq (NF.powQ s 2 / n + NF.powQ s 2 / n)) from rfl]
  rw [if_neg harg]
  rw [show NF.sub (NF.fin m) (NF.fin m) = NF.fin (m + -m) from rfl]
  rw [NF.div_fin_fin, if_neg hsq0]
  norm_num

/-- Witness for the amended C8 at `m = 1`, `s = 2`, `n = 5`, with the
constant-one stand-in for the square root (any positive value works:
the theorem never uses the magnitude). -/
theorem welchs_t_equal_inputs_amended_witness :
    (2 : ℚ) ≠ 0 ∧ (0 : ℚ) < 5 ∧
      0 < (fun _ : ℚ => (1 : ℚ)) (NF.powQ 2 2 / 5 + NF.powQ 2 2 / 5) ∧
      (welchs_t_test (fun _ : ℚ => (1 : ℚ)) (.fin 1) (.fin 1) (.fin 2) (.fin 2)
          (.fin 5) (.fin 5)).1 = NF.fin 0 :=
  ⟨by decide, by decide, by decide,
    welchs_t_equal_inputs_amended (fun _ => 1) 1 2 5 (by decide) (by decide) (by decide)⟩

/-- C7: for every `n_points` in `[6,15)` and every nonzero beamwidth
`fwhm`, `calc_bs_points` returns a grid of `n_points` points whose two
outermost points are `-22` and `+22`, whose `n_points - 2` interior
points are evenly spaced over `[-3, 3]` (the `i`-th interior point is
`-3 + 6*i/(n_points - 3)`), and whose scaled grid is exactly the
unscaled grid with every point multiplied by `fwhm`; the per-axis sweep
then offsets every scaled point by the previous known correction
(`dir_points`). -/
theorem except_pure {α : Type} (x : α) : (pure x : Except PyErr α) = Except.ok x := rfl

theorem calc_bs_points_grid (n : ℤ) (fwhm kband : ℚ) (h6 : 6 ≤ n) (h15 : n < 15)
    (hf : fwhm ≠ 0) :
    ∃ pts scaled : List ℚ,
      calc_bs_points n (some fwhm) kband = .ok (some (pts, scaled)) ∧
      pts.length = n.toNat ∧
      pts.head? = some (-22) ∧
      pts.getLast? = some 22 ∧
      (∀ i : ℕ, (i : ℤ) < n - 2 →
        pts.get? (i + 1) = some (-3 + 6 * (i : ℚ) / ((n : ℚ) - 3))) ∧
      scaled = pts.map (fun x => x * fwhm) ∧
      ∀ prev : ℚ, dir_points scaled prev = scaled.map (fun x => x + prev) := by
  have hls : linspace (-3) 3 (n - 2) =
      .ok ((List.range (n - 2).toNat).map
        (fun i : ℕ => -3 + (i : ℚ) * (3 - -3) / (((n - 2 : ℤ) : ℚ) - 1))) := by
    unfold linspace
    rw [if_neg (by omega), if_neg (by omega)]
  have hcb : calc_bs_points n (some fwhm) kband =
      .ok (some (([(-22 : ℚ)] ++ (List.range (n - 2).toNat).map
          (fun i : ℕ => -3 + (i : ℚ) * (3 - -3) / (((n - 2 : ℤ) : ℚ) - 1)) ++ [22]),
        ([(-22 : ℚ)] ++ (List.range (n - 2).toNat).map
          (fun i : ℕ => -3 + (i : ℚ) * (3 - -3) / (((n - 2 : ℤ) : ℚ) - 1)) ++ [22]).map
          (fun i => i * fwhm))) := by
    unfold calc_bs_points
    rw [if_neg (by omega), hls, ok_bind]
    simp [hf, except_pure]
  refine ⟨_, _, hcb, ?_, rfl, ?_, ?_, rfl, fun prev => rfl⟩
  · simp only [List.length_append, List.length_map, List.length_range,
      List.length_cons, List.length_nil]
    omega
  · exact List.getLast?_concat _
  · intro i hi
    have hA : (i + 1) < ([(-22 : ℚ)] ++ (List.range (n - 2).toNat).map
        (fun i : ℕ => -3 + (i : ℚ) * (3 - -3) / (((n - 2 : ℤ) : ℚ) - 1))).length := by
      simp only [List.length_append, List.length_map, List.length_range,
        List.length_cons, List.length_nil]
      omega
    rw [List.get?_append hA]
    rw [show ([(-22 : ℚ)] ++ (List.range (n - 2).toNat).map
        (fun i : ℕ => -3 + (i : ℚ) * (3 - -3) / (((n - 2 : ℤ) : ℚ) - 1))) =
      (-22 : ℚ) :: (List.range (n - 2).toNat).map
        (fun i : ℕ => -3 + (i : ℚ) * (3 - -3) / (((n - 2 : ℤ) : ℚ) - 1)) from rfl]
    rw [List.get?_cons_succ, List.get?_map]
    have hir : i < (n - 2).toNat := by omega
    rw [List.get?_range hir]
    simp only [Option.map_some']
    congr 1
    have hn3 : ((n : ℚ) - 3) ≠ 0 := by
      have hne : (n : ℚ) ≠ 3 := by
        intro hc
        have : (n : ℤ) = 3 := by exact_mod_cast hc
        omega
      intro hc
      apply hne
      linarith
    have hcast : (((n - 2 : ℤ) : ℚ) - 1) = (n : ℚ) - 3 := by push_cast; ring
    rw [hcast]
    field_simp
    ring

/-- Witness for C7 at `n_points = 9`, `fwhm = 1`. -/
theorem calc_bs_points_grid_witness :
    (6 : ℤ) ≤ 9 ∧ (9 : ℤ) < 15 ∧ (1 : ℚ) ≠ 0 ∧
    (∃ pts scaled : List ℚ,
      calc_bs_points 9 (some 1) 5 = .ok (some (pts, scaled)) ∧
      pts.length = (9 : ℤ).toNat ∧
      pts.head? = some (-22) ∧
      pts.getLast? = some 22 ∧
      (∀ i : ℕ, (i : ℤ) < 9 - 2 →
        pts.get? (i + 1) = some (-3 + 6 * (i : ℚ) / (((9 : ℤ) : ℚ) - 3))) ∧
      scaled = pts.map (fun x => x * 1) ∧
      ∀ prev : ℚ, dir_points scaled prev = scaled.map (fun x => x + prev)) :=
  ⟨by decide, by decide, by decide,
    calc_bs_points_grid 9 1 5 (by decide) (by decide) (by decide)⟩

theorem pyIndex_lt {α : Type} (l : List α) (i : ℕ) (d : α) (h : i < l.length) :
    pyIndex l i = .ok (l.getD i d) := by
  unfold pyIndex
  rw [List.get?_eq_get h, List.getD_eq_get l d h]

theorem pyIndex_ge {α : Type} (l : List α) (i : ℕ) (h : l.length ≤ i) :
    pyIndex l i = .error .indexError := by
  unfold pyIndex
  rw [List.get?_eq_none.mpr h]

/-- When every index is in range for both lists, the tsys-factor
comprehension succeeds and yields one quotient per index. -/
theorem buildTsys_ok : ∀ (idx : List ℕ) (sky : List ℚ) (q : List NF),
    (∀ i ∈ idx, i < sky.length ∧ i < q.length) →
    buildTsys sky q idx =
      .ok (idx.map (fun i => NF.div (.fin (sky.getD i 0)) (q.getD i NF.nan))) := by
  intro idx
  induction idx with
  | nil => intro sky q _; rfl
  | cons i rest ih =>
      intro sky q h
      have hi := h i (List.mem_cons_self i rest)
      unfold buildTsys
      rw [pyIndex_lt sky i 0 hi.1, ok_bind, pyIndex_lt q i NF.nan hi.2, ok_bind,
        ih sky q (fun j hj => h j (List.mem_cons_of_mem i hj)), ok_bind]
      rfl

/-- When some index is out of range for either list, the comprehension
raises `IndexError`. -/
theorem buildTsys_err : ∀ (idx : List ℕ) (sky : List ℚ) (q : List NF),
    (∃ i ∈ idx, sky.length ≤ i ∨ q.length ≤ i) →
    buildTsys sky q idx = .error .indexError := by
  intro idx
  induction idx with
  | nil => intro sky q h; simp at h
  | cons i rest ih =>
      intro sky q h
      by_cases hs : sky.length ≤ i
      · unfold buildTsys
        rw [pyIndex_ge sky i hs]
        rfl
      · by_cases hq : q.length ≤ i
        · unfold buildTsys
          rw [pyIndex_lt sky i 0 (by omega), ok_bind, pyIndex_ge q i hq]
          rfl
        · have hrest : ∃ j ∈ rest, sky.length ≤ j ∨ q.length ≤ j := by
            rcases h with ⟨j, hj, hcase⟩
            rcases List.mem_cons.mp hj with rfl | hjr
            · omega
            · exact ⟨j, hjr, hcase⟩
          unfold buildTsys
          rw [pyIndex_lt sky i 0 (by omega), ok_bind, pyIndex_lt q i NF.nan (by omega),
            ok_bind, ih sky q hrest]
          rfl

theorem bind_tsys_err {β : Type} (sky : List ℚ) (q : List NF)
    (f : List NF → Except PyErr β) (h : sky.length < 4 ∨ q.length < 4) :
    (buildTsys sky q [0, 1, 2, 3] >>= f) = .error .indexError := by
  rw [buildTsys_err [0, 1, 2, 3] sky q ⟨3, by simp, by omega⟩]
  rfl

theorem bcast_ok_len (f : NF → NF → NF) {a b : List NF} {L : ℕ}
    (ha : a.length = L) (hb : b.length = L) :
    ∃ c : List NF, bcast f a b = .ok c ∧ c.length = L :=
  ⟨_, bcast_ok f (by omega), by simp [List.length_zipWith, ha, hb]⟩

/-- For equal-length input arrays, `gain_cal` succeeds and all four
result arrays keep that length. -/
theorem gain_cal_ok (Tlna Tf : ℚ) (R1 R2 R3 R4 R5 Tp : List NF) (Fghz TP4corr : ℚ)
    (L : ℕ) (hR1 : R1.length = L) (hR2 : R2.length = L) (hR3 : R3.length = L)
    (hR4 : R4.length = L) (hR5 : R5.length = L) (hTp : Tp.length = L) :
    ∃ g : GainCalResult, gain_cal Tlna Tf R1 R2 R3 R4 R5 Tp Fghz TP4corr = .ok g ∧
      g.B.length = L ∧ g.BC.length = L ∧ g.CC.length = L ∧ g.Tnd.length = L := by
  have hT4P : (List.map (fun x => NF.add x (NF.fin TP4corr))
      (List.map (fun x => NF.add x (NF.fin (-(24 / 1000) * Fghz)))
        (List.map (fun x => NF.add x (NF.fin Tf))
          (List.map (fun x => NF.add x (NF.fin Tlna)) Tp)))).length = L := by
    simp [hTp]
  simp only [gain_cal]
  obtain ⟨r41, e_r41, l_r41⟩ := bcast_ok_len NF.sub hR4 hR1
  rw [e_r41, ok_bind]
  obtain ⟨B, e_B, l_B⟩ := bcast_ok_len NF.div hT4P l_r41
  rw [e_B, ok_bind]
  obtain ⟨r21, e_r21, l_r21⟩ := bcast_ok_len NF.sub hR2 hR1
  rw [e_r21, ok_bind]
  obtain ⟨T2, e_T2, l_T2⟩ := bcast_ok_len NF.mul l_B l_r21
  rw [e_T2, ok_bind]
  obtain ⟨r31, e_r31, l_r31⟩ := bcast_ok_len NF.sub hR3 hR1
  rw [e_r31, ok_bind]
  obtain ⟨T3, e_T3, l_T3⟩ := bcast_ok_len NF.mul l_B l_r31
  rw [e_T3, ok_bind]
  obtain ⟨r51, e_r51, l_r51⟩ := bcast_ok_len NF.sub hR5 hR1
  rw [e_r51, ok_bind]
  obtain ⟨T5, e_T5, l_T5⟩ := bcast_ok_len NF.mul l_B l_r51
  rw [e_T5, ok_bind]
  obtain ⟨t55, e_t55, l_t55⟩ := bcast_ok_len NF.mul l_T5 l_T5
  rw [e_t55, ok_bind]
  obtain ⟨t44, e_t44, l_t44⟩ := bcast_ok_len NF.mul hT4P hT4P
  rw [e_t44, ok_bind]
  obtain ⟨t33, e_t33, l_t33⟩ := bcast_ok_len NF.mul l_T3 l_T3
  rw [e_t33, ok_bind]
  obtain ⟨t22, e_t22, l_t22⟩ := bcast_ok_len NF.mul l_T2 l_T2
  rw [e_t22, ok_bind]
  obtain ⟨m1, e_m1, l_m1⟩ := bcast_ok_len NF.sub l_t55 l_t44
  rw [e_m1, ok_bind]
  obtain ⟨m2, e_m2, l_m2⟩ := bcast_ok_len NF.sub l_m1 l_t33
  rw [e_m2, ok_bind]
  obtain ⟨M, e_M, l_M⟩ := bcast_ok_len NF.add l_m2 l_t22
  rw [e_M, ok_bind]
  obtain ⟨n1, e_n1, l_n1⟩ := bcast_ok_len NF.sub l_T5 hT4P
  rw [e_n1, ok_bind]
  obtain ⟨n2, e_n2, l_n2⟩ := bcast_ok_len NF.sub l_n1 l_T3
  rw [e_n2, ok_bind]
  obtain ⟨N, e_N, l_N⟩ := bcast_ok_len NF.add l_n2 l_T2
  rw [e_N, ok_bind]
  obtain ⟨nt, e_nt, l_nt⟩ := bcast_ok_len NF.mul l_N hT4P
  rw [e_nt, ok_bind]
  obtain ⟨den, e_den, l_den⟩ := bcast_ok_len NF.sub l_nt l_M
  rw [e_den, ok_bind]
  obtain ⟨CC, e_CC, l_CC⟩ := bcast_ok_len NF.div l_N l_den
  rw [e_CC, ok_bind]
  obtain ⟨cct, e_cct, l_cct⟩ := bcast_ok_len NF.mul l_CC hT4P
  rw [e_cct, ok_bind]
  have hBC : (List.map (fun x => NF.sub (NF.fin 1) x) cct).length = L := by
    simp [l_cct]
  obtain ⟨t32, e_t32, l_t32⟩ := bcast_ok_len NF.sub l_T3 l_T2
  rw [e_t32, ok_bind]
  obtain ⟨p1, e_p1, l_p1⟩ := bcast_ok_len NF.mul hBC l_t32
  rw [e_p1, ok_bind]
  rw [ok_bind, ok_bind]
  obtain ⟨sqd, e_sqd, l_sqd⟩ := bcast_ok_len NF.sub l_t33 l_t22
  rw [e_sqd, ok_bind]
  obtain ⟨p2, e_p2, l_p2⟩ := bcast_ok_len NF.mul l_CC l_sqd
  rw [e_p2, ok_bind]
  obtain ⟨Tnd, e_Tnd, l_Tnd⟩ := bcast_ok_len NF.add l_p1 l_p2
  rw [e_Tnd, ok_bind]
  rw [except_pure]
  exact ⟨_, rfl, l_B, hBC, l_CC, l_Tnd⟩


set_option maxHeartbeats 2000000 in
/-- C10 amended: when the five reading vectors and `Tload` all have the
same length `L`, `process_minical_calib` returns a `tsys-factors` list
of exactly 4 entries when `L ≥ 4` — entry `i` being
`cal_data['sky'][i]` divided by the quadratic sky-temperature estimate
`Tquadratic[0][i]` — and raises `IndexError` when `L < 4`. -/
theorem process_minical_tsys_equal_length (cal : CalData) (L : ℕ)
    (Tlna Tf Fghz Tcorr : ℚ)
    (h0 : cal.zero.length = L) (h1 : cal.sky.length = L) (h2 : cal.skyND.length = L)
    (h3 : cal.load.length = L) (h4 : cal.loadND.length = L) (h5 : cal.Tload.length = L) :
    (4 ≤ L → ∃ r : MinicalResult,
        process_minical_calib cal Tlna Tf Fghz Tcorr = .ok r ∧
        r.tsysFactors.length = 4 ∧
        r.tsysFactors = [0, 1, 2, 3].map (fun i =>
          NF.div (.fin (cal.sky.getD i 0)) ((r.quadratic.headD []).getD i NF.nan))) ∧
    (L < 4 → process_minical_calib cal Tlna Tf Fghz Tcorr = .error .indexError) := by
  have hR1p : (List.map NF.fin cal.zero).length = L := by simp [h0]
  have hR2p : (List.map NF.fin cal.sky).length = L := by simp [h1]
  have hR3p : (List.map NF.fin cal.skyND).length = L := by simp [h2]
  have hR4p : (List.map NF.fin cal.load).length = L := by simp [h3]
  have hR5p : (List.map NF.fin cal.loadND).length = L := by simp [h4]
  have hTlp : (List.map NF.fin cal.Tload).length = L := by simp [h5]
  obtain ⟨g, eg, gB, gBC, gCC, gTnd⟩ :=
    gain_cal_ok Tlna Tf _ _ _ _ _ _ Fghz Tcorr L hR1p hR2p hR3p hR4p hR5p hTlp
  simp only [process_minical_calib]
  rw [eg, ok_bind]
  obtain ⟨r21p, e_r21p, l_r21p⟩ := bcast_ok_len NF.sub hR2p hR1p
  rw [e_r21p, ok_bind]
  obtain ⟨T2, e_T2, l_T2⟩ := bcast_ok_len NF.mul gB l_r21p
  rw [e_T2, ok_bind]
  obtain ⟨r31p, e_r31p, l_r31p⟩ := bcast_ok_len NF.sub hR3p hR1p
  rw [e_r31p, ok_bind]
  obtain ⟨T3, e_T3, l_T3⟩ := bcast_ok_len NF.mul gB l_r31p
  rw [e_T3, ok_bind]
  obtain ⟨r41p, e_r41p, l_r41p⟩ := bcast_ok_len NF.sub hR4p hR1p
  rw [e_r41p, ok_bind]
  obtain ⟨T4, e_T4, l_T4⟩ := bcast_ok_len NF.mul gB l_r41p
  rw [e_T4, ok_bind]
  obtain ⟨r51p, e_r51p, l_r51p⟩ := bcast_ok_len NF.sub hR5p hR1p
  rw [e_r51p, ok_bind]
  obtain ⟨T5, e_T5, l_T5⟩ := bcast_ok_len NF.mul gB l_r51p
  rw [e_T5, ok_bind]
  obtain ⟨a2, e_a2, l_a2⟩ := bcast_ok_len NF.mul gBC l_T2
  rw [e_a2, ok_bind]
  obtain ⟨b2, e_b2, l_b2⟩ := bcast_ok_len NF.mul gCC l_T2
  rw [e_b2, ok_bind]
  obtain ⟨c2, e_c2, l_c2⟩ := bcast_ok_len NF.mul l_b2 l_T2
  rw [e_c2, ok_bind]
  obtain ⟨T2C, e_T2C, l_T2C⟩ := bcast_ok_len NF.add l_a2 l_c2
  rw [e_T2C, ok_bind]
  obtain ⟨a3, e_a3, l_a3⟩ := bcast_ok_len NF.mul gBC l_T3
  rw [e_a3, ok_bind]
  obtain ⟨b3, e_b3, l_b3⟩ := bcast_ok_len NF.mul gCC l_T3
  rw [e_b3, ok_bind]
  obtain ⟨c3, e_c3, l_c3⟩ := bcast_ok_len NF.mul l_b3 l_T3
  rw [e_c3, ok_bind]
  obtain ⟨T3C, e_T3C, l_T3C⟩ := bcast_ok_len NF.add l_a3 l_c3
  rw [e_T3C, ok_bind]
  obtain ⟨a4, e_a4, l_a4⟩ := bcast_ok_len NF.mul gBC l_T4
  rw [e_a4, ok_bind]
  obtain ⟨b4, e_b4, l_b4⟩ := bcast_ok_len NF.mul gCC l_T4
  rw [e_b4, ok_bind]
  obtain ⟨c4, e_c4, l_c4⟩ := bcast_ok_len NF.mul l_b4 l_T4
  rw [e_c4, ok_bind]
  obtain ⟨T4C, e_T4C, l_T4C⟩ := bcast_ok_len NF.add l_a4 l_c4
  rw [e_T4C, ok_bind]
  obtain ⟨a5, e_a5, l_a5⟩ := bcast_ok_len NF.mul gBC l_T5
  rw [e_a5, ok_bind]
  obtain ⟨b5, e_b5, l_b5⟩ := bcast_ok_len NF.mul gCC l_T5
  rw [e_b5, ok_bind]
  obtain ⟨c5, e_c5, l_c5⟩ := bcast_ok_len NF.mul l_b5 l_T5
  rw [e_c5, ok_bind]
  obtain ⟨T5C, e_T5C, l_T5C⟩ := bcast_ok_len NF.add l_a5 l_c5
  rw [e_T5C, ok_bind]
  obtain ⟨FL, e_FL, l_FL⟩ := bcast_ok_len NF.div l_T2C l_T2
  rw [e_FL, ok_bind]
  constructor
  · intro hL
    have hsky4 : 4 ≤ cal.sky.length := le_of_le_of_eq hL h1.symm
    have hT2C4 : 4 ≤ T2C.length := le_of_le_of_eq hL l_T2C.symm
    have hside : ∀ i ∈ [0, 1, 2, 3], i < cal.sky.length ∧ i < T2C.length := by
      intro i hi
      simp only [List.mem_cons, List.not_mem_nil, or_false] at hi
      rcases hi with rfl | rfl | rfl | rfl <;>
        exact ⟨lt_of_lt_of_le (by decide) hsky4, lt_of_lt_of_le (by decide) hT2C4⟩
    rw [buildTsys_ok [0, 1, 2, 3] cal.sky T2C hside, ok_bind, except_pure]
    exact ⟨_, rfl, rfl, rfl⟩
  · intro hL
    exact bind_tsys_err cal.sky T2C _ (Or.inl (lt_of_eq_of_lt h1 hL))

/-- C10 counterexample: the input `bcastShortInput` has a reading
vector (`zero`) with fewer than 4 entries, yet `process_minical_calib`
returns a result instead of raising `IndexError`: numpy broadcasts the
length-1 `zero` array against the length-4 arrays, so every elementwise
operation succeeds and the tsys-factor comprehension finds all four
indices in range. -/
theorem tsys_factors_short_vector_cex :
    bcastShortInput.zero.length < 4 ∧
    (process_minical_calib bcastShortInput).isOk = true :=
  ⟨by decide, by decide⟩

/-- Witness for the amended C10 at a length-4 input (returns the four
quotients) and a length-3 input (raises `IndexError`). -/
theorem process_minical_tsys_equal_length_witness :
    (calFour.zero.length = 4 ∧ calFour.sky.length = 4 ∧ calFour.skyND.length = 4 ∧
      calFour.load.length = 4 ∧ calFour.loadND.length = 4 ∧ calFour.Tload.length = 4) ∧
    ((4 ≤ 4 → ∃ r : MinicalResult,
        process_minical_calib calFour 25 1 20 0 = .ok r ∧
        r.tsysFactors.length = 4 ∧
        r.tsysFactors = [0, 1, 2, 3].map (fun i =>
          NF.div (.fin (calFour.sky.getD i 0)) ((r.quadratic.headD []).getD i NF.nan))) ∧
      (4 < 4 → process_minical_calib calFour 25 1 20 0 = .error .indexError)) ∧
    (calThree.zero.length = 3 ∧ calThree.sky.length = 3 ∧ calThree.skyND.length = 3 ∧
      calThree.load.length = 3 ∧ calThree.loadND.length = 3 ∧ calThree.Tload.length = 3) ∧
    ((4 ≤ 3 → ∃ r : MinicalResult,
        process_minical_calib calThree 25 1 20 0 = .ok r ∧
        r.tsysFactors.length = 4 ∧
        r.tsysFactors = [0, 1, 2, 3].map (fun i =>
          NF.div (.fin (calThree.sky.getD i 0)) ((r.quadratic.headD []).getD i NF.nan))) ∧
      (3 < 4 → process_minical_calib calThree 25 1 20 0 = .error .indexError)) :=
  ⟨⟨rfl, rfl, rfl, rfl, rfl, rfl⟩,
    process_minical_tsys_equal_length calFour 4 25 1 20 0 rfl rfl rfl rfl rfl rfl,
    ⟨rfl, rfl, rfl, rfl, rfl, rfl⟩,
    process_minical_tsys_equal_length calThree 3 25 1 20 0 rfl rfl rfl rfl rfl rfl⟩
